import Mathlib

/-!
Shallow embedding of `myia/prim/py_implementations.py`: the pure and
VM-coupled implementations of the debug-VM primitives, together with the
value universe and structural type model they operate on.

Python scalars are modelled exactly for `int` and as rationals for `float`
(exact real arithmetic; IEEE rounding is out of scope).  Python exceptions
become an explicit error type threaded through `Except`.
-/

namespace Myia

/-- Synchronous error taxonomy of the evaluator (Python exception classes). -/
inductive PyErr where
  | typeError
  | indexError
  | attributeError
  | zeroDivisionError
  deriving DecidableEq, Repr

/-- Host-level type tags, the `type(x)` of a value that falls through to
`types.External`. -/
inductive HostTy where
  | listTy
  | ndarrayTy
  | objTy
  | other (id : Nat)
  deriving DecidableEq, Repr

/-- Structural type model of `myia.dtype`: `Bool`, `Int(w)`, `Float(w)`,
`Tuple(ts)`, `List(t)`, `External(host type)`, and the type of types. -/
inductive MType where
  | typeOfType
  | bool
  | int (width : Nat)
  | float (width : Nat)
  | tuple (elems : List MType)
  | list (elem : MType)
  | external (ty : HostTy)
  deriving BEq, Repr

mutual

/-- Structural equality on types (Python `==` on `dtype` instances). -/
def MType.eqb : MType → MType → Bool
  | .typeOfType, .typeOfType => true
  | .bool, .bool => true
  | .int w, .int w2 => w == w2
  | .float w, .float w2 => w == w2
  | .tuple ts, .tuple us => MType.eqbList ts us
  | .list t, .list u => MType.eqb t u
  | .external h, .external h2 => h == h2
  | _, _ => false

/-- Elementwise structural equality on type lists. -/
def MType.eqbList : List MType → List MType → Bool
  | [], [] => true
  | t :: ts, u :: us => MType.eqb t u && MType.eqbList ts us
  | _, _ => false

end

mutual

theorem MType.eqb_eq : (a b : MType) → MType.eqb a b = true → a = b
  | .typeOfType, .typeOfType, _ => rfl
  | .bool, .bool, _ => rfl
  | .int w, .int w2, h => by simp [MType.eqb] at h; simp [h]
  | .float w, .float w2, h => by simp [MType.eqb] at h; simp [h]
  | .tuple ts, .tuple us, h => by
      rw [MType.eqbList_eq ts us (by simpa [MType.eqb] using h)]
  | .list t, .list u, h => by
      rw [MType.eqb_eq t u (by simpa [MType.eqb] using h)]
  | .external x, .external y, h => by simp [MType.eqb] at h; simp [h]
  | .typeOfType, .bool, h | .typeOfType, .int _, h | .typeOfType, .float _, h
  | .typeOfType, .tuple _, h | .typeOfType, .list _, h | .typeOfType, .external _, h
  | .bool, .typeOfType, h | .bool, .int _, h | .bool, .float _, h
  | .bool, .tuple _, h | .bool, .list _, h | .bool, .external _, h
  | .int _, .typeOfType, h | .int _, .bool, h | .int _, .float _, h
  | .int _, .tuple _, h | .int _, .list _, h | .int _, .external _, h
  | .float _, .typeOfType, h | .float _, .bool, h | .float _, .int _, h
  | .float _, .tuple _, h | .float _, .list _, h | .float _, .external _, h
  | .tuple _, .typeOfType, h | .tuple _, .bool, h | .tuple _, .int _, h
  | .tuple _, .float _, h | .tuple _, .list _, h | .tuple _, .external _, h
  | .list _, .typeOfType, h | .list _, .bool, h | .list _, .int _, h
  | .list _, .float _, h | .list _, .tuple _, h | .list _, .external _, h
  | .external _, .typeOfType, h | .external _, .bool, h | .external _, .int _, h
  | .external _, .float _, h | .external _, .tuple _, h | .external _, .list _, h =>
      by simp [MType.eqb] at h

theorem MType.eqbList_eq : (as bs : List MType) → MType.eqbList as bs = true → as = bs
  | [], [], _ => rfl
  | t :: ts, u :: us, h => by
      have h2 := h
      simp only [MType.eqbList, Bool.and_eq_true] at h2
      rw [MType.eqb_eq t u h2.1, MType.eqbList_eq ts us h2.2]
  | [], _ :: _, h => by simp [MType.eqbList] at h
  | _ :: _, [], h => by simp [MType.eqbList] at h

end

mutual

theorem MType.eqb_refl : (a : MType) → MType.eqb a a = true
  | .typeOfType => rfl
  | .bool => rfl
  | .int w => by simp [MType.eqb]
  | .float w => by simp [MType.eqb]
  | .tuple ts => by simpa [MType.eqb] using MType.eqbList_refl ts
  | .list t => by simp [MType.eqb, MType.eqb_refl t]
  | .external h => by simp [MType.eqb]

theorem MType.eqbList_refl : (ts : List MType) → MType.eqbList ts ts = true
  | [] => rfl
  | t :: ts => by simp [MType.eqbList, MType.eqb_refl t, MType.eqbList_refl ts]

end

instance : DecidableEq MType := fun a b =>
  decidable_of_iff (MType.eqb a b = true)
    ⟨MType.eqb_eq a b, fun h => h ▸ MType.eqb_refl a⟩

/-- Python numeric scalar: `int` exactly, `float` as a rational. -/
inductive Scalar where
  | int (v : ℤ)
  | float (v : ℚ)
  deriving DecidableEq, Repr

/-- Numeric value of a scalar (ints and floats compared/combined on a common
number line, as Python does). -/
def Scalar.toQ : Scalar → ℚ
  | .int v => (v : ℚ)
  | .float v => v

/-- Runtime value universe of the evaluator: scalars, booleans, tuples,
lists, n-d arrays (shape plus flat data), type values, attribute-bearing
host objects, and opaque external objects. -/
inductive Value where
  | scalar (s : Scalar)
  | bool (b : Bool)
  | tuple (elems : List Value)
  | list (elems : List Value)
  | arr (shape : List Nat) (data : List ℚ)
  | typeVal (t : MType)
  | obj (attrs : List (String × Value))
  | external (ty : HostTy)

/-! ## Dual registration

`register(prim)` installs the same function in both registries: the pure
registry gets `fn` itself, and the VM registry gets `lambda vm, *args:
fn(*args)`, which ignores the host object.  An entry therefore carries both
implementations. -/

/-- A primitive's registry entry: the pure implementation and the VM-coupled
implementation (which additionally receives the host object). -/
structure ImplPair (VMo : Type u) (α : Type v) (β : Type w) where
  py : α → β
  vm : VMo → α → β

/-- The `register` decorator: `vm_register(prim)(lambda vm, *args: fn(*args))`
and `py_register(prim)(fn)`. -/
def register (fn : α → β) : ImplPair VMo α β :=
  { py := fn, vm := fun _ args => fn args }

/-! ## typeof -/

mutual

/-- Structural type inference, `typeof` from the source: type values map to
the type of types; bools, ints and floats to the 64-bit scalar types; tuples
recurse elementwise; a non-empty list recurses and demands that every other
element's type equal the first element's, else `TypeError`; everything else
(including the empty list and arrays) maps to `External(type(x))`. -/
def typeof : Value → Except PyErr MType
  | .typeVal _ => .ok .typeOfType
  | .bool _ => .ok .bool
  | .scalar (.int _) => .ok (.int 64)
  | .scalar (.float _) => .ok (.float 64)
  | .tuple xs => do
      let ts ← typeofList xs
      .ok (.tuple ts)
  | .list [] => .ok (.external .listTy)
  | .list (x :: rest) => do
      let type0 ← typeof x
      let ts ← typeofList rest
      if ts.any (fun t => decide (t ≠ type0)) then
        .error .typeError
      else
        .ok (.list type0)
  | .arr _ _ => .ok (.external .ndarrayTy)
  | .obj _ => .ok (.external .objTy)
  | .external ty => .ok (.external ty)

/-- Elementwise `map(typeof, xs)`, forced left to right (as the starred
unpacking in the source forces the whole map). -/
def typeofList : List Value → Except PyErr (List MType)
  | [] => .ok []
  | x :: xs => do
      let t ← typeof x
      let ts ← typeofList xs
      .ok (t :: ts)

end

/-! ## Scalar arithmetic -/

/-- Python `+` on numeric scalars: exact on two ints, float otherwise. -/
def pyAdd : Scalar → Scalar → Scalar
  | .int a, .int b => .int (a + b)
  | x, y => .float (x.toQ + y.toQ)

/-- Python `-` on numeric scalars. -/
def pySub : Scalar → Scalar → Scalar
  | .int a, .int b => .int (a - b)
  | x, y => .float (x.toQ - y.toQ)

/-- Python `*` on numeric scalars. -/
def pyMul : Scalar → Scalar → Scalar
  | .int a, .int b => .int (a * b)
  | x, y => .float (x.toQ * y.toQ)

/-- Python `/` on numeric scalars: true division, always a float; division by
zero raises `ZeroDivisionError`. -/
def pyDiv (x y : Scalar) : Except PyErr Scalar :=
  if y.toQ = 0 then .error .zeroDivisionError
  else .ok (.float (x.toQ / y.toQ))

/-- Python `%` on numeric scalars: remainder of floor division (the result
takes the divisor's sign); zero divisor raises `ZeroDivisionError`. -/
def pyMod (x y : Scalar) : Except PyErr Scalar :=
  match x, y with
  | .int a, .int b =>
      if b = 0 then .error .zeroDivisionError else .ok (.int (Int.fmod a b))
  | x, y =>
      if y.toQ = 0 then .error .zeroDivisionError
      else .ok (.float (x.toQ - y.toQ * (⌊x.toQ / y.toQ⌋ : ℤ)))

/-- Python `**` on scalars: `int ** int` is exact (a negative exponent gives
a float, and `0 ** negative` raises `ZeroDivisionError`); with a float
involved the result is a float.  A genuinely fractional exponent produces an
irrational real in general, which has no representative in this rational
model of floats; that branch is mapped to `0` and is exercised by no claim. -/
def pyPow (x y : Scalar) : Except PyErr Scalar :=
  match x, y with
  | .int a, .int b =>
      if 0 ≤ b then .ok (.int (a ^ b.toNat))
      else if a = 0 then .error .zeroDivisionError
      else .ok (.float ((a : ℚ) ^ b))
  | x, y =>
      if y.toQ.den = 1 then
        if x.toQ = 0 ∧ y.toQ < 0 then .error .zeroDivisionError
        else .ok (.float (x.toQ ^ y.toQ.num))
      else .ok (.float 0)

/-- Python unary `-` on numeric scalars. -/
def pyNeg : Scalar → Scalar
  | .int a => .int (-a)
  | .float q => .float (-q)

/-- The numeric reading Python's arithmetic operators give a value that
passed `_assert_scalar`: a scalar is itself, a bool counts as `0`/`1`
(it is an `int` subclass, so `isinstance(x, (int, float))` accepts it), and
a 0-d array contributes its single element (the numpy scalar result is
collapsed onto the same number line). -/
def scalarView : Value → Option Scalar
  | .scalar s => some s
  | .bool b => some (.int (if b then 1 else 0))
  | .arr [] (q :: _) => some (.float q)
  | _ => none

/-- Scalar check of `_assert_scalar` for one argument: an `np.ndarray` must
have shape `()`, anything else must be an `int` or `float` instance (which
includes `bool`), otherwise `TypeError`. -/
def assertScalarOne : Value → Except PyErr Unit
  | .arr shape _ => if shape = [] then .ok () else .error .typeError
  | .scalar _ => .ok ()
  | .bool _ => .ok ()
  | _ => .error .typeError

/-- The `_assert_scalar(*args)` loop: check each argument in order, raising
`TypeError` at the first non-scalar. -/
def _assert_scalar : List Value → Except PyErr Unit
  | [] => .ok ()
  | x :: rest => do
      assertScalarOne x
      _assert_scalar rest

/-- Implement `scalar_add`. -/
def scalar_add (x y : Value) : Except PyErr Value := do
  _assert_scalar [x, y]
  match scalarView x, scalarView y with
  | some a, some b => .ok (.scalar (pyAdd a b))
  | _, _ => .error .typeError

/-- Implement `scalar_sub`. -/
def scalar_sub (x y : Value) : Except PyErr Value := do
  _assert_scalar [x, y]
  match scalarView x, scalarView y with
  | some a, some b => .ok (.scalar (pySub a b))
  | _, _ => .error .typeError

/-- Implement `scalar_mul`. -/
def scalar_mul (x y : Value) : Except PyErr Value := do
  _assert_scalar [x, y]
  match scalarView x, scalarView y with
  | some a, some b => .ok (.scalar (pyMul a b))
  | _, _ => .error .typeError

/-- Implement `scalar_div`. -/
def scalar_div (x y : Value) : Except PyErr Value := do
  _assert_scalar [x, y]
  match scalarView x, scalarView y with
  | some a, some b => do
      let r ← pyDiv a b
      .ok (.scalar r)
  | _, _ => .error .typeError

/-- Implement `scalar_mod`. -/
def scalar_mod (x y : Value) : Except PyErr Value := do
  _assert_scalar [x, y]
  match scalarView x, scalarView y with
  | some a, some b => do
      let r ← pyMod a b
      .ok (.scalar r)
  | _, _ => .error .typeError

/-- Implement `scalar_pow`. -/
def scalar_pow (x y : Value) : Except PyErr Value := do
  _assert_scalar [x, y]
  match scalarView x, scalarView y with
  | some a, some b => do
      let r ← pyPow a b
      .ok (.scalar r)
  | _, _ => .error .typeError

/-- Implement `scalar_uadd` (returns its argument unchanged). -/
def scalar_uadd (x : Value) : Except PyErr Value := do
  _assert_scalar [x]
  .ok x

/-- Implement `scalar_usub`. -/
def scalar_usub (x : Value) : Except PyErr Value := do
  _assert_scalar [x]
  match scalarView x with
  | some a => .ok (.scalar (pyNeg a))
  | none => .error .typeError

/-- Implement `scalar_eq` (numeric comparison, so `2 == 2.0`). -/
def scalar_eq (x y : Value) : Except PyErr Value := do
  _assert_scalar [x, y]
  match scalarView x, scalarView y with
  | some a, some b => .ok (.bool (decide (a.toQ = b.toQ)))
  | _, _ => .error .typeError

/-- Implement `scalar_lt`. -/
def scalar_lt (x y : Value) : Except PyErr Value := do
  _assert_scalar [x, y]
  match scalarView x, scalarView y with
  | some a, some b => .ok (.bool (decide (a.toQ < b.toQ)))
  | _, _ => .error .typeError

/-- Implement `scalar_gt`. -/
def scalar_gt (x y : Value) : Except PyErr Value := do
  _assert_scalar [x, y]
  match scalarView x, scalarView y with
  | some a, some b => .ok (.bool (decide (a.toQ > b.toQ)))
  | _, _ => .error .typeError

/-- Implement `scalar_ne`. -/
def scalar_ne (x y : Value) : Except PyErr Value := do
  _assert_scalar [x, y]
  match scalarView x, scalarView y with
  | some a, some b => .ok (.bool (decide (a.toQ ≠ b.toQ)))
  | _, _ => .error .typeError

/-- Implement `scalar_le`. -/
def scalar_le (x y : Value) : Except PyErr Value := do
  _assert_scalar [x, y]
  match scalarView x, scalarView y with
  | some a, some b => .ok (.bool (decide (a.toQ ≤ b.toQ)))
  | _, _ => .error .typeError

/-- Implement `scalar_ge`. -/
def scalar_ge (x y : Value) : Except PyErr Value := do
  _assert_scalar [x, y]
  match scalarView x, scalarView y with
  | some a, some b => .ok (.bool (decide (a.toQ ≥ b.toQ)))
  | _, _ => .error .typeError

/-! ## Tuple and container primitives -/

/-- Implement `head`: `tup[0]`, so `IndexError` on an empty sequence (Python
indexing also accepts lists; non-sequences raise `TypeError`). -/
def head : Value → Except PyErr Value
  | .tuple (x :: _) => .ok x
  | .tuple [] => .error .indexError
  | .list (x :: _) => .ok x
  | .list [] => .error .indexError
  | _ => .error .typeError

/-- Implement `tail`: `tup[1:]`.  Python slicing never raises on short
sequences: on an empty tuple it returns the empty tuple. -/
def tail : Value → Except PyErr Value
  | .tuple xs => .ok (.tuple xs.tail)
  | .list xs => .ok (.list xs.tail)
  | _ => .error .typeError

/-- Implement `setitem`: a tuple is rebuilt by the comprehension
`tuple(value if i == item else x for i, x in enumerate(data))` (note that an
index that matches no position leaves the copy identical to the original —
no bounds check); any other container is shallow-copied and the copy is
updated in place, so a list raises `IndexError` out of range (after Python's
negative-index adjustment) and a non-indexable value raises `TypeError`. -/
def setitem (data : Value) (item : ℤ) (value : Value) : Except PyErr Value :=
  match data with
  | .tuple xs =>
      .ok (.tuple (xs.enum.map (fun p => if (p.1 : ℤ) = item then value else p.2)))
  | .list xs =>
      let n : ℤ := xs.length
      let idx := if item < 0 then item + n else item
      if 0 ≤ idx ∧ idx < n then .ok (.list (xs.set idx.toNat value))
      else .error .indexError
  | _ => .error .typeError

/-- Attribute lookup on the modelled host object (`getattr`): the first
binding of the name, if any. -/
def getattrList (attrs : List (String × Value)) (name : String) : Option Value :=
  (attrs.find? (fun p => p.1 = name)).map (fun p => p.2)

/-- Python `setattr` on the shallow copy: overwrite every binding of the
name if one exists, else append a new binding. -/
def setAttrList (attrs : List (String × Value)) (name : String) (v : Value) :
    List (String × Value) :=
  if attrs.any (fun p => p.1 = name) then
    attrs.map (fun p => if p.1 = name then (name, v) else p)
  else attrs ++ [(name, v)]

/-- Implement `setattr`: `data2 = copy(data); py_setattr(data2, attr, value);
return data2`.  Only attribute-bearing objects accept the assignment; other
values raise `AttributeError`. -/
def setattr (data : Value) (attr : String) (value : Value) : Except PyErr Value :=
  match data with
  | .obj attrs => .ok (.obj (setAttrList attrs attr value))
  | _ => .error .attributeError

/-! ## Iterator protocol -/

/-- Implement `iter`: `(0, xs)`. -/
def _iter (xs : List α) : Nat × List α := (0, xs)

/-- Implement `hasnext`: `n < len(data)`. -/
def _hasnext (it : Nat × List α) : Bool := decide (it.1 < it.2.length)

/-- Implement `next`: `(data[n], (n + 1, data))`; the indexing raises
`IndexError` once the cursor has reached the end. -/
def _next (it : Nat × List α) : Except PyErr (α × (Nat × List α)) :=
  if h : it.1 < it.2.length then
    .ok (it.2.get ⟨it.1, h⟩, (it.1 + 1, it.2))
  else .error .indexError

/-! ## array_scan and its VM coupling -/

/-- An n-d array decomposed into its 1-D slices along a chosen axis — the
view on which `np.apply_along_axis(f, axis, array)` operates. -/
structure NDSlices (α : Type u) where
  slices : List (List α)

/-- `np.apply_along_axis(f, axis, array)`: apply `f` to every 1-D slice
along the axis and reassemble. -/
def apply_along_axis (f : List α → List α) (a : NDSlices α) : NDSlices α :=
  ⟨a.slices.map f⟩

/-- The slice loop of `array_scan`: `val = init; for x: val = fn(val, x);
y[...] = val` — each position receives the running value, so the scan is
inclusive. -/
def scanLoop (fn : α → α → α) : α → List α → List α
  | _, [] => []
  | val, x :: xs =>
      let v := fn val x
      v :: scanLoop fn v xs

/-- Implement `array_scan` (pure): the slice loop applied along the axis. -/
def array_scan (fn : α → α → α) (init : α) (a : NDSlices α) : NDSlices α :=
  apply_along_axis (fun ary => scanLoop fn init ary) a

/-- The host evaluator seen from a VM-coupled implementation: the
invoke-callable hook. -/
structure VMHost (κ : Type u) (α : Type v) where
  call : κ → List α → α

/-- Implement `_array_scan_vm`: wrap the callable value into
`fn_(a, b) = vm.call(fn, [a, b])` and delegate to the pure `array_scan`. -/
def _array_scan_vm (vm : VMHost κ α) (fn : κ) (init : α) (a : NDSlices α) :
    NDSlices α :=
  array_scan (fun x y => vm.call fn [x, y]) init a

/-- Repeated `next`: perform `k` successive `next` calls, keeping only the
final iterator (each call consumes one element). -/
def nextN : Nat → (Nat × List α) → Except PyErr (Nat × List α)
  | 0, it => .ok it
  | k + 1, it => do
      let r ← _next it
      nextN k r.2

/-! ## Helper lemmas -/

theorem exceptBindOk (a : α) (f : α → Except ε β) :
    (Except.ok a >>= f) = f a := rfl

theorem exceptBindErr (e : ε) (f : α → Except ε β) :
    ((Except.error e : Except ε α) >>= f) = Except.error e := rfl

theorem scanLoop_length (fn : α → α → α) :
    ∀ (init : α) (s : List α), (scanLoop fn init s).length = s.length
  | _, [] => rfl
  | init, x :: xs => by
      simp [scanLoop, scanLoop_length fn (fn init x) xs]

theorem scanLoop_zero (fn : α → α → α) (init : α) (s : List α) (x : α)
    (hx : s[0]? = some x) : (scanLoop fn init s)[0]? = some (fn init x) := by
  cases s with
  | nil => simp at hx
  | cons a s =>
      simp at hx
      subst hx
      simp [scanLoop]

theorem scanLoop_succ (fn : α → α → α) :
    ∀ (init : α) (s : List α) (i : Nat) (x y : α),
      s[i + 1]? = some x → (scanLoop fn init s)[i]? = some y →
      (scanLoop fn init s)[i + 1]? = some (fn y x)
  | _, [], _, _, _, hx, _ => by simp at hx
  | init, a :: s, 0, x, y, hx, hy => by
      simp at hx
      simp only [scanLoop] at hy ⊢
      cases s with
      | nil => simp at hx
      | cons b s =>
          simp at hx
          subst hx
          simp at hy
          subst hy
          simp [scanLoop]
  | init, a :: s, i + 1, x, y, hx, hy => by
      simp only [scanLoop] at hy ⊢
      simp only [List.getElem?_cons_succ] at hx hy ⊢
      exact scanLoop_succ fn (fn init a) s i x y hx hy

theorem nextN_ok (α : Type u) (xs : List α) :
    ∀ (k m : Nat), m + k ≤ xs.length → nextN k (m, xs) = .ok (m + k, xs)
  | 0, m, _ => rfl
  | k + 1, m, h => by
      have hm : m < xs.length := by omega
      have step : _next (m, xs) = .ok (xs.get ⟨m, hm⟩, (m + 1, xs)) := by
        simp [_next, hm]
      have hmk : m + (k + 1) = m + 1 + k := by omega
      simp only [nextN, step, exceptBindOk, hmk]
      exact nextN_ok α xs k (m + 1) (by omega)

theorem nextN_exhausted (α : Type u) (xs : List α) :
    ∀ (k m : Nat), m + k = xs.length → nextN (k + 1) (m, xs) = .error .indexError
  | 0, m, h => by
      have hm : ¬ m < xs.length := by omega
      simp [nextN, _next, hm, exceptBindErr]
  | k + 1, m, h => by
      have hm : m < xs.length := by omega
      have step : _next (m, xs) = .ok (xs.get ⟨m, hm⟩, (m + 1, xs)) := by
        simp [_next, hm]
      simp only [nextN, step, exceptBindOk]
      exact nextN_exhausted α xs k (m + 1) (by omega)

theorem assertScalarOne_error (v : Value) (e : PyErr)
    (h : assertScalarOne v = .error e) : e = .typeError := by
  cases v with
  | scalar s => exact Except.noConfusion h
  | bool b => exact Except.noConfusion h
  | arr sh d =>
      simp only [assertScalarOne] at h
      split at h
      · exact Except.noConfusion h
      · injection h with h2
        exact h2.symm
  | tuple xs =>
      injection h with h2
      exact h2.symm
  | list xs =>
      injection h with h2
      exact h2.symm
  | typeVal t =>
      injection h with h2
      exact h2.symm
  | obj attrs =>
      injection h with h2
      exact h2.symm
  | external ty =>
      injection h with h2
      exact h2.symm

theorem assert_one_arr (sh : List Nat) (d : List ℚ) (hsh : sh ≠ []) :
    _assert_scalar [.arr sh d] = .error .typeError := by
  simp only [_assert_scalar, assertScalarOne, if_neg hsh, exceptBindErr]

theorem assert_two_arr_left (sh : List Nat) (d : List ℚ) (v : Value)
    (hsh : sh ≠ []) : _assert_scalar [.arr sh d, v] = .error .typeError := by
  simp only [_assert_scalar, assertScalarOne, if_neg hsh, exceptBindErr]

theorem assert_two_arr_right (v : Value) (sh : List Nat) (d : List ℚ)
    (hsh : sh ≠ []) : _assert_scalar [v, .arr sh d] = .error .typeError := by
  have hsplit : _assert_scalar [v, .arr sh d] =
      (assertScalarOne v >>= fun _ => _assert_scalar [.arr sh d]) := rfl
  cases hv : assertScalarOne v with
  | ok u =>
      rw [hsplit, hv, exceptBindOk, assert_one_arr sh d hsh]
  | error e =>
      have he : e = .typeError := assertScalarOne_error v e hv
      subst he
      rw [hsplit, hv, exceptBindErr]

theorem find_map_overwrite (a b : String) (v : Value) (hb : b ≠ a) :
    ∀ ps : List (String × Value),
      ((ps.map (fun p => if p.1 = a then (a, v) else p)).find?
          (fun p => decide (p.1 = b))) =
        ps.find? (fun p => decide (p.1 = b))
  | [] => rfl
  | p :: ps => by
      by_cases hp : p.1 = a
      · rw [List.map_cons, if_pos hp]
        rw [List.find?_cons_of_neg _ (by simpa using Ne.symm hb)]
        rw [List.find?_cons_of_neg _ (by simp [hp]; exact Ne.symm hb)]
        exact find_map_overwrite a b v hb ps
      · rw [List.map_cons, if_neg hp]
        by_cases hpb : p.1 = b
        · rw [List.find?_cons_of_pos _ (by simpa using hpb),
            List.find?_cons_of_pos _ (by simpa using hpb)]
        · rw [List.find?_cons_of_neg _ (by simpa using hpb),
            List.find?_cons_of_neg _ (by simpa using hpb)]
          exact find_map_overwrite a b v hb ps

theorem find_map_overwrite_same (a : String) (v : Value) :
    ∀ ps : List (String × Value),
      ps.any (fun p => decide (p.1 = a)) = true →
      ((ps.map (fun p => if p.1 = a then (a, v) else p)).find?
          (fun p => decide (p.1 = a))) = some (a, v)
  | [], hmem => by simp at hmem
  | p :: ps, hmem => by
      by_cases hp : p.1 = a
      · rw [List.map_cons, if_pos hp]
        rw [List.find?_cons_of_pos _ (by simp)]
      · rw [List.map_cons, if_neg hp]
        rw [List.find?_cons_of_neg _ (by simpa using hp)]
        refine find_map_overwrite_same a v ps ?_
        simp only [List.any_cons, Bool.or_eq_true, decide_eq_true_eq] at hmem
        rcases hmem with hmem | hmem
        · exact absurd hmem hp
        · simpa using hmem

theorem find_append_single (a b : String) (v : Value) (hb : b ≠ a) :
    ∀ ps : List (String × Value),
      ((ps ++ [(a, v)]).find? (fun p => decide (p.1 = b))) =
        ps.find? (fun p => decide (p.1 = b))
  | [] => by
      simp only [List.nil_append]
      rw [List.find?_cons_of_neg _ (by simpa using Ne.symm hb)]
  | p :: ps => by
      by_cases hpb : p.1 = b
      · rw [List.cons_append, List.find?_cons_of_pos _ (by simpa using hpb),
          List.find?_cons_of_pos _ (by simpa using hpb)]
      · rw [List.cons_append, List.find?_cons_of_neg _ (by simpa using hpb),
          List.find?_cons_of_neg _ (by simpa using hpb)]
        exact find_append_single a b v hb ps

theorem find_append_single_same (a : String) (v : Value) :
    ∀ ps : List (String × Value), (∀ p ∈ ps, ¬ p.1 = a) →
      ((ps ++ [(a, v)]).find? (fun p => decide (p.1 = a))) = some (a, v)
  | [], _ => by
      simp only [List.nil_append]
      rw [List.find?_cons_of_pos _ (by simp)]
  | p :: ps, h => by
      rw [List.cons_append,
        List.find?_cons_of_neg _ (by simpa using h p (by simp))]
      exact find_append_single_same a v ps (fun q hq => h q (by simp [hq]))

/-! ## Claim theorems -/

/-- C1: a primitive registered through `register` gets a VM-coupled
implementation that ignores the host object and calls the pure one, so the
two agree on every host object and argument; instantiated at `scalar_add`
on `(2, 3)`, both give `5`; and the VM-coupled `array_scan` delegates to the
pure `array_scan`, differing only in how the callable is invoked. -/
theorem register_vm_agrees_py :
    (∀ (VMo α β : Type) (fn : α → β) (v : VMo) (a : α),
      (register fn : ImplPair VMo α β).vm v a = (register fn : ImplPair VMo α β).py a) ∧
    (∀ (VMo : Type) (v : VMo),
      (register (fun p : Value × Value => scalar_add p.1 p.2) :
          ImplPair VMo (Value × Value) (Except PyErr Value)).vm v
          (.scalar (.int 2), .scalar (.int 3)) = .ok (.scalar (.int 5)) ∧
      (register (fun p : Value × Value => scalar_add p.1 p.2) :
          ImplPair VMo (Value × Value) (Except PyErr Value)).py
          (.scalar (.int 2), .scalar (.int 3)) = .ok (.scalar (.int 5))) ∧
    (∀ (κ α : Type) (vm : VMHost κ α) (fn : κ) (init : α) (a : NDSlices α),
      _array_scan_vm vm fn init a =
        array_scan (fun x y => vm.call fn [x, y]) init a) :=
  ⟨fun _ _ _ _ _ _ => rfl, fun _ _ => ⟨rfl, rfl⟩, fun _ _ _ _ _ _ => rfl⟩

/-- C2: `array_scan` is the inclusive running fold applied to every 1-D
slice along the axis: the output slice has the input's length, its position
0 holds `fn init s0`, position `i+1` holds `fn` of the previous output and
the input at `i+1`; concretely, scanning `[1, 2, 3]` with addition from `0`
gives `[1, 3, 6]`. -/
theorem array_scan_inclusive_fold :
    (∀ (α : Type) (fn : α → α → α) (init : α) (a : NDSlices α),
        (array_scan fn init a).slices =
          a.slices.map (fun s => scanLoop fn init s)) ∧
    (∀ (α : Type) (fn : α → α → α) (init : α) (s : List α),
        (scanLoop fn init s).length = s.length) ∧
    (∀ (α : Type) (fn : α → α → α) (init : α) (s : List α) (x : α),
        s[0]? = some x → (scanLoop fn init s)[0]? = some (fn init x)) ∧
    (∀ (α : Type) (fn : α → α → α) (init : α) (s : List α) (i : Nat) (x y : α),
        s[i + 1]? = some x → (scanLoop fn init s)[i]? = some y →
        (scanLoop fn init s)[i + 1]? = some (fn y x)) ∧
    array_scan (fun a b : ℤ => a + b) 0 ⟨[[1, 2, 3]]⟩ = ⟨[[1, 3, 6]]⟩ :=
  ⟨fun _ _ _ _ => rfl,
   fun _ fn init s => scanLoop_length fn init s,
   fun _ fn init s x hx => scanLoop_zero fn init s x hx,
   fun _ fn init s i x y hx hy => scanLoop_succ fn init s i x y hx hy,
   rfl⟩

/-- C2 witness: the recurrence evaluated on `[1, 2, 3]` at position 2. -/
theorem array_scan_inclusive_fold_witness :
    (scanLoop (fun a b : ℤ => a + b) 0 [1, 2, 3])[2]? = some 6 :=
  array_scan_inclusive_fold.2.2.2.1 ℤ (fun a b => a + b) 0 [1, 2, 3] 1 3 3 rfl rfl

/-- C3: on a non-empty list whose elements all have well-defined inferred
types, `typeof` returns `List(T)` for `T` the first element's type exactly
when every other element's type equals `T`, and raises `TypeError` exactly
when some other element's type differs from `T` (each comparison is against
the first element only). -/
theorem typeof_nonempty_list (x : Value) (rest : List Value) (t0 : MType)
    (ts : List MType) (h0 : typeof x = .ok t0) (hs : typeofList rest = .ok ts) :
    (typeof (.list (x :: rest)) = .ok (.list t0) ↔ ∀ t ∈ ts, t = t0) ∧
    (typeof (.list (x :: rest)) = .error .typeError ↔ ∃ t ∈ ts, t ≠ t0) := by
  have key : typeof (.list (x :: rest)) =
      if ts.any (fun t => decide (t ≠ t0)) then .error .typeError
      else .ok (.list t0) := by
    rw [typeof, h0, exceptBindOk, hs, exceptBindOk]
  rw [key]
  by_cases hAny : ts.any (fun t => decide (t ≠ t0)) = true
  · rw [if_pos hAny]
    simp only [List.any_eq_true, decide_eq_true_eq] at hAny
    constructor
    · constructor
      · intro h; exact absurd h (by simp)
      · intro hAll
        obtain ⟨t, ht, hne⟩ := hAny
        exact absurd (hAll t ht) hne
    · simp [hAny]
  · rw [if_neg hAny]
    simp only [List.any_eq_true, decide_eq_true_eq, not_exists] at hAny
    push_neg at hAny
    constructor
    · simp only [Except.ok.injEq, MType.list.injEq, true_iff]
      intro t ht
      exact hAny t ht
    · constructor
      · intro h; exact absurd h (by simp)
      · intro ⟨t, ht, hne⟩
        exact absurd (hAny t ht) hne

/-- C3 witness: the list `[1, 2]` of two ints, whose element types are both
`Int(64)`. -/
theorem typeof_nonempty_list_witness :
    (typeof (.list [.scalar (.int 1), .scalar (.int 2)]) = .ok (.list (.int 64)) ↔
      ∀ t ∈ [MType.int 64], t = .int 64) ∧
    (typeof (.list [.scalar (.int 1), .scalar (.int 2)]) = .error .typeError ↔
      ∃ t ∈ [MType.int 64], t ≠ .int 64) :=
  typeof_nonempty_list (.scalar (.int 1)) [.scalar (.int 2)] (.int 64)
    [.int 64] rfl rfl

/-- C4: `scalar_add` on two numeric scalars succeeds and the result is the
exact sum on the common number line; and each of the fourteen scalar
primitives first runs `_assert_scalar`, so any argument that is an array of
rank at least 1 makes the call raise `TypeError` (in either argument
position for the binary ones). -/
theorem scalar_prims_spec :
    (∀ a b : Scalar,
        scalar_add (.scalar a) (.scalar b) = .ok (.scalar (pyAdd a b)) ∧
        (pyAdd a b).toQ = a.toQ + b.toQ) ∧
    (∀ f ∈ ([scalar_add, scalar_sub, scalar_mul, scalar_div, scalar_mod,
              scalar_pow, scalar_eq, scalar_lt, scalar_gt, scalar_ne,
              scalar_le, scalar_ge] : List (Value → Value → Except PyErr Value)),
        ∀ (sh : List Nat) (d : List ℚ) (v : Value), sh ≠ [] →
          f (.arr sh d) v = .error .typeError ∧
          f v (.arr sh d) = .error .typeError) ∧
    (∀ g ∈ ([scalar_uadd, scalar_usub] : List (Value → Except PyErr Value)),
        ∀ (sh : List Nat) (d : List ℚ), sh ≠ [] →
          g (.arr sh d) = .error .typeError) := by
  refine ⟨fun a b => ⟨rfl, ?_⟩, ?_, ?_⟩
  · cases a <;> cases b <;> simp [pyAdd, Scalar.toQ]
  · intro f hf sh d v hsh
    have hL := assert_two_arr_left sh d v hsh
    have hR := assert_two_arr_right v sh d hsh
    fin_cases hf <;>
      exact ⟨by simp only [scalar_add, scalar_sub, scalar_mul, scalar_div,
          scalar_mod, scalar_pow, scalar_eq, scalar_lt, scalar_gt, scalar_ne,
          scalar_le, scalar_ge, hL, exceptBindErr],
        by simp only [scalar_add, scalar_sub, scalar_mul, scalar_div,
          scalar_mod, scalar_pow, scalar_eq, scalar_lt, scalar_gt, scalar_ne,
          scalar_le, scalar_ge, hR, exceptBindErr]⟩
  · intro g hg sh d hsh
    have h1 := assert_one_arr sh d hsh
    fin_cases hg <;>
      simp only [scalar_uadd, scalar_usub, h1, exceptBindErr]

/-- C4 witness: `2 + 3 = 5` exactly, and `scalar_mul`/`scalar_usub` on the
rank-1 array of shape `[2]` raise `TypeError`. -/
theorem scalar_prims_spec_witness :
    (scalar_add (.scalar (.int 2)) (.scalar (.int 3)) =
        .ok (.scalar (pyAdd (.int 2) (.int 3))) ∧
      (pyAdd (.int 2) (.int 3)).toQ = (Scalar.int 2).toQ + (Scalar.int 3).toQ) ∧
    (scalar_mul (.arr [2] [1, 1]) (.bool true) = .error .typeError ∧
      scalar_mul (.bool true) (.arr [2] [1, 1]) = .error .typeError) ∧
    scalar_usub (.arr [2] [1, 1]) = .error .typeError :=
  ⟨scalar_prims_spec.1 (.int 2) (.int 3),
   scalar_prims_spec.2.1 scalar_mul (by simp) [2] [1, 1] (.bool true)
     (by simp),
   scalar_prims_spec.2.2 scalar_usub (by simp) [2] [1, 1] (by simp)⟩

/-- C5: `setitem` on a tuple or list and `setattr` on an object return a
fresh value holding the new element/attribute with every other position or
attribute binding preserved from the input (which the copy-on-write
implementation never mutates; in this functional embedding the input value
is untouched by construction). -/
theorem setitem_setattr_fresh :
    (∀ (xs : List Value) (i : Nat) (v : Value), i < xs.length →
        ∃ ys, setitem (.tuple xs) i v = .ok (.tuple ys) ∧
          ys.length = xs.length ∧ ys[i]? = some v ∧
          ∀ j, j ≠ i → ys[j]? = xs[j]?) ∧
    (∀ (xs : List Value) (i : Nat) (v : Value), i < xs.length →
        ∃ ys, setitem (.list xs) i v = .ok (.list ys) ∧
          ys.length = xs.length ∧ ys[i]? = some v ∧
          ∀ j, j ≠ i → ys[j]? = xs[j]?) ∧
    (∀ (attrs : List (String × Value)) (a : String) (v : Value),
        ∃ r, setattr (.obj attrs) a v = .ok (.obj r) ∧
          getattrList r a = some v ∧
          ∀ b, b ≠ a → getattrList r b = getattrList attrs b) := by
  refine ⟨fun xs i v hi => ?_, fun xs i v hi => ?_, fun attrs a v => ?_⟩
  · refine ⟨_, rfl, ?_, ?_, ?_⟩
    · simp [List.enum_length]
    · simp only [List.getElem?_map, List.getElem?_enum,
        List.getElem?_eq_getElem hi, Option.map_some']
      simp
    · intro j hj
      rcases Nat.lt_or_ge j xs.length with hjl | hjl
      · simp only [List.getElem?_map, List.getElem?_enum,
          List.getElem?_eq_getElem hjl, Option.map_some']
        have hne : ¬ ((j : ℤ) = (i : ℤ)) := by exact_mod_cast hj
        rw [if_neg hne]
      · have h1 : xs[j]? = none := by
          simp only [List.getElem?_eq_none_iff]; omega
        have h2 : (xs.enum.map
            (fun p => if (p.1 : ℤ) = (i : ℤ) then v else p.2))[j]? = none := by
          simp only [List.getElem?_eq_none_iff, List.length_map,
            List.enum_length]
          omega
        rw [h1, h2]
  · have hcond : (0 : ℤ) ≤ (i : ℤ) ∧ (i : ℤ) < (xs.length : ℤ) :=
      ⟨Int.ofNat_nonneg i, by exact_mod_cast hi⟩
    have hneg : ¬ ((i : ℤ) < 0) := by omega
    refine ⟨xs.set i v, ?_, ?_, ?_, ?_⟩
    · simp only [setitem, hneg, if_false]
      rw [if_pos hcond]
      simp
    · simp [List.length_set]
    · exact List.getElem?_set_eq_of_lt v hi
    · intro j hj
      exact List.getElem?_set_ne (fun h => hj h.symm)
  · refine ⟨setAttrList attrs a v, rfl, ?_, ?_⟩
    · unfold getattrList setAttrList
      by_cases hmem : attrs.any (fun p => decide (p.1 = a)) = true
      · rw [if_pos hmem, find_map_overwrite_same a v attrs hmem]
        rfl
      · rw [if_neg hmem]
        have hall : ∀ p ∈ attrs, ¬ p.1 = a := by
          intro p hp hpa
          exact hmem (List.any_eq_true.mpr ⟨p, hp, by simpa using hpa⟩)
        rw [find_append_single_same a v attrs hall]
        rfl
    · intro b hb
      unfold getattrList setAttrList
      by_cases hmem : attrs.any (fun p => decide (p.1 = a)) = true
      · rw [if_pos hmem, find_map_overwrite a b v hb attrs]
      · rw [if_neg hmem, find_append_single a b v hb attrs]

/-- C5 witness: set index 0 of the pair `(1, 2)` to `9`. -/
theorem setitem_setattr_fresh_witness :
    ∃ ys, setitem (.tuple [.scalar (.int 1), .scalar (.int 2)]) 0
        (.scalar (.int 9)) = .ok (.tuple ys) ∧
      ys.length = 2 ∧ ys[0]? = some (.scalar (.int 9)) ∧
      ∀ j, j ≠ 0 →
        ys[j]? = [Value.scalar (.int 1), Value.scalar (.int 2)][j]? :=
  setitem_setattr_fresh.1 [.scalar (.int 1), .scalar (.int 2)] 0
    (.scalar (.int 9)) (by decide)

/-- C7 counterexample: `setitem` on a tuple with an out-of-range index does
not raise: the rebuilding comprehension simply matches no position and
returns an unchanged copy. -/
theorem setitem_tuple_oob_counterexample :
    setitem (.tuple [.scalar (.int 1)]) 5 (.scalar (.int 9)) =
      .ok (.tuple [.scalar (.int 1)]) ∧
    ∀ e : PyErr, setitem (.tuple [.scalar (.int 1)]) 5 (.scalar (.int 9)) ≠
      .error e :=
  ⟨rfl, fun _ h => nomatch h⟩

/-- C7 amended: an out-of-range index makes `setitem` raise `IndexError` on
a list (the mutable container, after negative-index adjustment), but on a
tuple it returns an unchanged copy without error. -/
theorem setitem_out_of_range (xs : List Value) (item : ℤ) (v : Value)
    (h : item < -(xs.length : ℤ) ∨ (xs.length : ℤ) ≤ item) :
    setitem (.list xs) item v = .error .indexError ∧
    setitem (.tuple xs) item v = .ok (.tuple xs) := by
  constructor
  · have hnot : ¬ ((0 : ℤ) ≤ (if item < 0 then item + (xs.length : ℤ) else item) ∧
        (if item < 0 then item + (xs.length : ℤ) else item) < (xs.length : ℤ)) := by
      by_cases hil : item < 0
      · rw [if_pos hil]; omega
      · rw [if_neg hil]; omega
    simp only [setitem]
    rw [if_neg hnot]
  · simp only [setitem, Except.ok.injEq, Value.tuple.injEq]
    have : xs.enum.map (fun p => if (p.1 : ℤ) = item then v else p.2) =
        xs.enum.map (fun p => p.2) := by
      apply List.map_congr_left
      intro p hp
      have hlt : p.1 < xs.length := by
        have hm := List.mem_enum_iff_getElem?.mp hp
        obtain ⟨hl, -⟩ := List.getElem?_eq_some_iff.mp hm
        exact hl
      rw [if_neg (by omega)]
    rw [this, List.enum_map_snd]

/-- C7 amended witness: index 5 on the one-element list and tuple. -/
theorem setitem_out_of_range_witness :
    setitem (.list [.bool true]) 5 (.bool false) = .error .indexError ∧
    setitem (.tuple [.bool true]) 5 (.bool false) = .ok (.tuple [.bool true]) :=
  setitem_out_of_range [.bool true] 5 (.bool false) (Or.inr (by decide))

/-- C6: for a source of length `n`, `k ≤ n` next-calls from a fresh iterator
succeed and leave the cursor at `k`; the `(n+1)`-th call errors with
`IndexError`; and `hasnext` is `false` exactly at cursor `n`. -/
theorem iterator_protocol (α : Type) (xs : List α) :
    (∀ k, k ≤ xs.length → nextN k (_iter xs) = .ok (k, xs)) ∧
    nextN (xs.length + 1) (_iter xs) = .error .indexError ∧
    (∀ k, k ≤ xs.length → (_hasnext (k, xs) = false ↔ k = xs.length)) := by
  refine ⟨fun k hk => ?_, ?_, fun k hk => ?_⟩
  · simpa using nextN_ok α xs k 0 (by omega)
  · exact nextN_exhausted α xs xs.length 0 (by omega)
  · simp only [_hasnext, decide_eq_false_iff_not, not_lt]
    omega

/-- C6 witness: instantiated on the two-element source `[5, 7]`. -/
theorem iterator_protocol_witness :
    nextN 2 (_iter [(5 : ℤ), 7]) = .ok (2, [(5 : ℤ), 7]) ∧
    nextN 3 (_iter [(5 : ℤ), 7]) = .error .indexError ∧
    (_hasnext (2, [(5 : ℤ), 7]) = false ↔ 2 = 2) :=
  ⟨(iterator_protocol ℤ [5, 7]).1 2 (by decide),
   (iterator_protocol ℤ [5, 7]).2.1,
   (iterator_protocol ℤ [5, 7]).2.2 2 (by decide)⟩

/-- C8 counterexample: `tail` of the empty tuple does not raise; `tup[1:]`
on `()` is `()` (Python slicing never raises on short sequences). -/
theorem tail_empty_tuple_counterexample :
    tail (.tuple []) = .ok (.tuple []) ∧
    ∀ e : PyErr, tail (.tuple []) ≠ .error e :=
  ⟨rfl, fun _ h => nomatch h⟩

/-- C8 amended: `head` of a non-empty tuple is its first element and `tail`
is the rest as a new tuple; on the empty tuple `head` raises `IndexError`
while `tail` returns the empty tuple. -/
theorem head_tail_spec :
    (∀ (x : Value) (xs : List Value),
        head (.tuple (x :: xs)) = .ok x ∧
        tail (.tuple (x :: xs)) = .ok (.tuple xs)) ∧
    head (.tuple []) = .error .indexError ∧
    tail (.tuple []) = .ok (.tuple []) :=
  ⟨fun _ _ => ⟨rfl, rfl⟩, rfl, rfl⟩

/-- C9: `typeof` of the empty list does not raise: the list rule requires
non-emptiness, so `[]` falls through to the `External(type(x))` fallback,
tagged with the host `list` type. -/
theorem typeof_empty_list : typeof (.list []) = .ok (.external .listTy) := rfl

/-- C10: `next` is persistent: it returns the element at the cursor paired
with a fresh iterator `(cursor + 1, source)` built from the unchanged input
pair, so the same iterator value always yields the same element and the
same successor. -/
theorem next_persistent (α : Type) (data : List α) (n : Nat)
    (h : n < data.length) :
    _next (n, data) = .ok (data.get ⟨n, h⟩, (n + 1, data)) := by
  simp [_next, h]

/-- C10 witness: `next` on cursor 0 of `[1, 2]`. -/
theorem next_persistent_witness :
    _next (0, [(1 : ℤ), 2]) = .ok (1, (1, [(1 : ℤ), 2])) :=
  next_persistent ℤ [(1 : ℤ), 2] 0 (by decide)

end Myia
